import Mathlib

/-!
Verification of the textwolf XML printer (textwolf/xmlprinter.hpp).

The printer is embedded at the level of Unicode scalars: the C++ code decodes
every input string through TextScanner with the application charset and
re-encodes each scalar through the IO charset when appending to the output
buffer.  We model strings and buffers as lists of scalar values (Nat), which
is faithful for the loop structure of the source: every print loop reads
scalars until it meets the scalar 0 (the end-of-data sentinel of the byte
source / CStringIterator contract).  The codec byte-encodings themselves are
outside the claims.
-/

set_option autoImplicit false

namespace Textwolf

/-- Scalar values of a Lean string literal, used to write concrete byte/scalar
lists readably. -/
def strBytes (s : String) : List Nat := s.toList.map Char.toNat

/-! ## Escaping (This::printEsc, This::printToBufferSubstChr and the two tables) -/

/-- Index of the first occurrence of `c` in a list, as `memchr` computes it over
the first `nof_echr` bytes of the `echr` array (the list given to it below has
exactly `nof_echr` entries, including the zero padding bytes of the C array). -/
def memchrIdx (c : Nat) : List Nat → Option Nat
  | [] => none
  | x :: rest => if c = x then some 0 else (memchrIdx c rest).map (· + 1)

/-- This::printEsc: print the substitute string for `c` if `c` occurs in `echr`,
else `c` itself.  The substitute strings are read up to their NUL terminator,
modelled by storing them as scalar lists directly. -/
def printEsc (c : Nat) (buf : List Nat) (echr : List Nat) (estr : List (List Nat)) : List Nat :=
  match memchrIdx c echr with
  | some i => buf ++ estr.getD i []
  | none => buf ++ [c]

/-- The attribute-value escape characters: the C array
`"<>'\"&\0\b\t\n\r"` padded with zero bytes to `nof_echr = 12` entries. -/
def attrEchr : List Nat := [60, 62, 39, 34, 38, 0, 8, 9, 10, 13, 0, 0]

/-- The attribute-value substitute strings; the two trailing entries are the
zero-initialized slots of the C array `estr[12]` that has only 10 initializers
(they are never read: `memchr` finds the NUL at index 5 first). -/
def attrEstr : List (List Nat) :=
  [strBytes "&lt;", strBytes "&gt;", strBytes "&apos;", strBytes "&quot;", strBytes "&amp;",
   strBytes "&#0;", strBytes "&#8;", strBytes "&#9;", strBytes "&#10;", strBytes "&#13;",
   [], []]

/-- The content escape characters: the C array `"<>&\0\b"` padded with a zero
byte to `nof_echr = 6` entries. -/
def contentEchr : List Nat := [60, 62, 38, 0, 8, 0]

/-- The content substitute strings; the trailing entry is the zero-initialized
slot of `estr[6]` that has only 5 initializers (never read). -/
def contentEstr : List (List Nat) :=
  [strBytes "&lt;", strBytes "&gt;", strBytes "&amp;", strBytes "&#0;", strBytes "&#8;", []]

/-- This::printToBufferSubstChr: scan scalars until the 0 sentinel; scalars
below 128 go through printEsc, larger scalars are printed unchanged. -/
def printToBufferSubstChr (src : List Nat) (buf : List Nat)
    (echr : List Nat) (estr : List (List Nat)) : List Nat :=
  match src with
  | [] => buf
  | c :: rest =>
    if c = 0 then buf
    else if c < 128 then printToBufferSubstChr rest (printEsc c buf echr estr) echr estr
    else printToBufferSubstChr rest (buf ++ [c]) echr estr

/-- This::printToBufferAttributeValue: a double quote, the escaped value, a
double quote. -/
def printToBufferAttributeValue (src : List Nat) (buf : List Nat) : List Nat :=
  let buf := buf ++ [34]
  let buf := printToBufferSubstChr src buf attrEchr attrEstr
  buf ++ [34]

/-- This::printToBufferContent: the value with the content escaping table. -/
def printToBufferContent (src : List Nat) (buf : List Nat) : List Nat :=
  printToBufferSubstChr src buf contentEchr contentEstr

/-- This::printToBuffer (string overload): prints the scalars of `src` until
the 0 sentinel, unescaped. -/
def printToBufferStr (src : List Nat) (buf : List Nat) : List Nat :=
  match src with
  | [] => buf
  | c :: rest => if c = 0 then buf else printToBufferStr rest (buf ++ [c])

/-! ## The printer state machine (struct This) -/

/-- The private enum State of struct This. -/
inductive State where
  | Init
  | Content
  | TagAttribute
  | TagElement
  deriving DecidableEq

/-- The mutable data of struct This relevant to the printing operations:
the output state, the tag stack and the declared encoding
(m_attributes.getEncoding()).

Modelled from the spec: the TagStack type (textwolf/xmltagstack.hpp) is not
among the sources; following spec section 4.4 it is a LIFO of element names
with push / pop / top, modelled as a list of scalar lists whose head is the
top.  Its top operation reports failure on an empty stack, which is the
convention the call site in printCloseTag relies on. -/
structure Printer where
  state : State
  tagstack : List (List Nat)
  encoding : List Nat
  deriving DecidableEq

/-- Result of one printing operation: the returned Bool, the updated printer
and the updated output buffer. -/
structure PRes where
  ret : Bool
  printer : Printer
  buf : List Nat
  deriving DecidableEq

/-- This::printHeader: the XML prolog with the declared encoding spliced in,
then state Content. -/
def printHeader (p : Printer) (buf : List Nat) : Printer × List Nat :=
  let buf := printToBufferStr (strBytes "<?xml version=\"1.0\" encoding=\"") buf
  let buf := printToBufferStr p.encoding buf
  let buf := printToBufferStr (strBytes "\" standalone=\"yes\"?>\n") buf
  ({ p with state := State.Content }, buf)

/-- This::exitTagContext: outside state Content, print the header first when in
Init, then print the closing angle and enter Content.  Note that the angle is
printed even on the Init path, right after the header. -/
def exitTagContext (p : Printer) (buf : List Nat) : Printer × List Nat :=
  if p.state ≠ State.Content then
    let pb := if p.state = State.Init then printHeader p buf else (p, buf)
    ({ pb.1 with state := State.Content }, pb.2 ++ [62])
  else (p, buf)

/-- This::printOpenTag: exit the tag context, print the opening angle and the
name, push the name, enter TagElement, return true. -/
def printOpenTag (src : List Nat) (p : Printer) (buf : List Nat) : PRes :=
  let pb := exitTagContext p buf
  let buf := pb.2 ++ [60]
  let buf := printToBufferStr src buf
  ⟨true, { pb.1 with tagstack := src :: pb.1.tagstack, state := State.TagElement }, buf⟩

/-- This::printAttribute: in TagElement print a blank, the name and the equal
sign, enter TagAttribute and return true; otherwise return false. -/
def printAttribute (src : List Nat) (p : Printer) (buf : List Nat) : PRes :=
  if p.state = State.TagElement then
    let buf := buf ++ [32]
    let buf := printToBufferStr src buf
    let buf := buf ++ [61]
    ⟨true, { p with state := State.TagAttribute }, buf⟩
  else ⟨false, p, buf⟩

/-- This::printValue: in TagAttribute print a blank and the quoted escaped
value, enter TagElement and return true; otherwise exit the tag context,
print the value with content escaping and return false. -/
def printValue (src : List Nat) (p : Printer) (buf : List Nat) : PRes :=
  if p.state = State.TagAttribute then
    let buf := buf ++ [32]
    let buf := printToBufferAttributeValue src buf
    ⟨true, { p with state := State.TagElement }, buf⟩
  else
    let pb := exitTagContext p buf
    ⟨false, pb.1, printToBufferContent src pb.2⟩

/-- This::printCloseTag: fail when the tag stack reports no top or the top
name is empty; in TagElement print the self-closing angle pair and enter
Content; in any state other than Content fail; in Content print the full
closing tag with the top name; pop the stack on success. -/
def printCloseTag (p : Printer) (buf : List Nat) : PRes :=
  match p.tagstack with
  | [] => ⟨false, p, buf⟩
  | top :: rest =>
    if top.length = 0 then ⟨false, p, buf⟩
    else if p.state = State.TagElement then
      ⟨true, { p with state := State.Content, tagstack := rest }, buf ++ [47, 62]⟩
    else if p.state ≠ State.Content then ⟨false, p, buf⟩
    else
      let buf := buf ++ [60, 47]
      let buf := printToBufferStr top buf
      ⟨true, { p with tagstack := rest }, buf ++ [62]⟩

/-! ## Call sequences, for the reachability invariant -/

/-- One printer operation together with its argument. -/
inductive Act where
  | aOpen (name : List Nat)
  | aAttr (name : List Nat)
  | aValue (v : List Nat)
  | aClose
  deriving DecidableEq

/-- Apply one operation to a printer/buffer pair, discarding the Bool result. -/
def stepAct (pb : Printer × List Nat) (a : Act) : Printer × List Nat :=
  match a with
  | Act.aOpen n => let r := printOpenTag n pb.1 pb.2; (r.printer, r.buf)
  | Act.aAttr n => let r := printAttribute n pb.1 pb.2; (r.printer, r.buf)
  | Act.aValue v => let r := printValue v pb.1 pb.2; (r.printer, r.buf)
  | Act.aClose => let r := printCloseTag pb.1 pb.2; (r.printer, r.buf)

/-- Run a sequence of operations. -/
def runActs (pb : Printer × List Nat) (acts : List Act) : Printer × List Nat :=
  acts.foldl stepAct pb

/-- The freshly constructed printer object: state Init, empty tag stack. -/
def initP (enc : List Nat) : Printer := ⟨State.Init, [], enc⟩

/-! ## Encoding selection (XMLPrinterBase::parseEncoding, XMLPrinter::createPrinter) -/

/-- ::tolower restricted to ASCII, the relevant domain after the filter. -/
def asciiLower (b : Nat) : Nat := if 65 ≤ b ∧ b ≤ 90 then b + 32 else b

/-- XMLPrinterBase::parseEncoding.  The source skips characters with
`*cc <= ' '` (char is signed on the reference platform, so bytes at or above
128 are skipped as well), skips the hyphen, and pushes the lowercased rest;
the separate blank check of the source is subsumed by the first test. -/
def parseEncoding : List Nat → List Nat
  | [] => []
  | b :: rest =>
    if b ≤ 32 ∨ 128 ≤ b then parseEncoding rest
    else if b = 45 then parseEncoding rest
    else asciiLower b :: parseEncoding rest

/-- Byte `i` of the C string backing a std::string: the stored bytes followed
by NUL terminators.  Reads past the terminator of a string literal are
undefined in the source; they are modelled as the observed NUL padding. -/
def cstrByte : List Nat → Nat → Nat
  | [], _ => 0
  | b :: _, 0 => b
  | _ :: rest, Nat.succ i => cstrByte rest i

/-- `memcmp(a, b, n) == 0` over the C strings of `a` and `b`. -/
def memcmpEq (a b : List Nat) : Nat → Bool
  | 0 => true
  | Nat.succ m => (cstrByte a m == cstrByte b m) && memcmpEq a b m

/-- The isolatin / iso8859 test of createPrinter:
`enc.size() >= 8 && memcmp(enc.c_str(), "isolatin", enc.size()) == 0`, and the
analogous 7-byte test against "iso8859". -/
def isoCond (enc : List Nat) : Bool :=
  (decide (8 ≤ enc.length) && memcmpEq enc (strBytes "isolatin") enc.length)
  || (decide (7 ≤ enc.length) && memcmpEq enc (strBytes "iso8859") enc.length)

/-- The codec-specific printer object type instantiated by createPrinter
(the IOCharset template argument; the method table installed with it consists
of the six member function pointers of that instantiation). -/
inductive Codec where
  | IsoLatin1
  | UTF8
  | UTF16BE
  | UTF16LE
  | UCS2BE
  | UCS2LE
  | UCS4BE
  | UCS4LE
  deriving DecidableEq

/-- Outcome of XMLPrinter::createPrinter: `ret` is the value the bool function
returns (`none` when control falls off the end of the function without a
return statement), `obj` the printer object stored into m_obj. -/
structure CreateResult where
  ret : Option Bool
  obj : Option Codec
  deriving DecidableEq

/-- XMLPrinter::createPrinter on the declared encoding `ident`: normalize with
parseEncoding, then select the codec through the if chain of the source.
Every selecting branch ends without a return statement; only the final else
returns false. -/
def createPrinter (ident : List Nat) : CreateResult :=
  let enc := parseEncoding ident
  if isoCond enc then ⟨none, some Codec.IsoLatin1⟩
  else if enc.length = 0 ∨ enc = strBytes "utf8" then ⟨none, some Codec.UTF8⟩
  else if enc = strBytes "utf16" ∨ enc = strBytes "utf16be" then ⟨none, some Codec.UTF16BE⟩
  else if enc = strBytes "utf16le" then ⟨none, some Codec.UTF16LE⟩
  else if enc = strBytes "ucs2" ∨ enc = strBytes "ucs2be" then ⟨none, some Codec.UCS2BE⟩
  else if enc = strBytes "ucs2le" then ⟨none, some Codec.UCS2LE⟩
  else if enc = strBytes "ucs4" ∨ enc = strBytes "ucs4be" then ⟨none, some Codec.UCS4BE⟩
  else if enc = strBytes "ucs4le" then ⟨none, some Codec.UCS4LE⟩
  else ⟨some false, none⟩

/-- The normalizations accepted by the if chain of createPrinter. -/
def supportedEncodings : List (List Nat) :=
  [strBytes "utf8", strBytes "utf16", strBytes "utf16be", strBytes "utf16le",
   strBytes "ucs2", strBytes "ucs2be", strBytes "ucs2le",
   strBytes "ucs4", strBytes "ucs4be", strBytes "ucs4le",
   strBytes "isolatin", strBytes "iso8859"]

/-! ## Specification-side descriptions used in the theorem statements -/

/-- The attribute-value escaping table as a per-scalar function. -/
def attrEscChar (c : Nat) : List Nat :=
  if c = 60 then strBytes "&lt;"
  else if c = 62 then strBytes "&gt;"
  else if c = 39 then strBytes "&apos;"
  else if c = 34 then strBytes "&quot;"
  else if c = 38 then strBytes "&amp;"
  else if c = 8 then strBytes "&#8;"
  else if c = 9 then strBytes "&#9;"
  else if c = 10 then strBytes "&#10;"
  else if c = 13 then strBytes "&#13;"
  else [c]

/-- The content escaping table as a per-scalar function. -/
def contentEscChar (c : Nat) : List Nat :=
  if c = 60 then strBytes "&lt;"
  else if c = 62 then strBytes "&gt;"
  else if c = 38 then strBytes "&amp;"
  else if c = 8 then strBytes "&#8;"
  else [c]

/-- Escape a value with a per-scalar table, stopping at the 0 sentinel. -/
def escapeAll (f : Nat → List Nat) : List Nat → List Nat
  | [] => []
  | c :: rest => if c = 0 then [] else f c ++ escapeAll f rest

/-- The prolog bytes printHeader emits for a declared encoding. -/
def headerBytes (enc : List Nat) : List Nat :=
  strBytes "<?xml version=\"1.0\" encoding=\"" ++ enc.takeWhile (fun b => b != 0)
    ++ strBytes "\" standalone=\"yes\"?>\n"

/-- The bytes exitTagContext appends for a given starting state. -/
def exitOutSpec (p : Printer) : List Nat :=
  if p.state = State.Content then []
  else (if p.state = State.Init then headerBytes p.encoding else []) ++ [62]

/-- Identification of encoding identifiers up to letter case and occurrences of
hyphen and blank: erase hyphens and blanks, lowercase the rest. -/
def normHS (s : List Nat) : List Nat :=
  (s.filter (fun b => !(b == 45) && !(b == 32))).map asciiLower

/-! ## Helper lemmas -/

lemma takeWhile_nz {l : List Nat} (h : ∀ b ∈ l, b ≠ 0) :
    l.takeWhile (fun b => b != 0) = l := by
  induction l with
  | nil => rfl
  | cons b rest ih =>
    have hb : b ≠ 0 := h b (by simp)
    simp [List.takeWhile_cons, hb, ih (fun x hx => h x (by simp [hx]))]

lemma printToBufferStr_eq (src : List Nat) : ∀ buf : List Nat,
    printToBufferStr src buf = buf ++ src.takeWhile (fun b => b != 0) := by
  induction src with
  | nil => intro buf; simp [printToBufferStr]
  | cons c rest ih =>
    intro buf
    by_cases hc : c = 0
    · simp [printToBufferStr, hc]
    · simp [printToBufferStr, hc, ih, List.takeWhile_cons]

lemma printEsc_append (c : Nat) (buf echr : List Nat) (estr : List (List Nat)) :
    printEsc c buf echr estr = buf ++ printEsc c [] echr estr := by
  unfold printEsc
  cases memchrIdx c echr <;> simp

lemma printEsc_attr_fin : ∀ i : Fin 128, i.val ≠ 0 →
    printEsc i.val [] attrEchr attrEstr = attrEscChar i.val := by decide

lemma printEsc_content_fin : ∀ i : Fin 128, i.val ≠ 0 →
    printEsc i.val [] contentEchr contentEstr = contentEscChar i.val := by decide

lemma attrEscChar_ge {c : Nat} (h : 128 ≤ c) : attrEscChar c = [c] := by
  have h60 : c ≠ 60 := by omega
  have h62 : c ≠ 62 := by omega
  have h39 : c ≠ 39 := by omega
  have h34 : c ≠ 34 := by omega
  have h38 : c ≠ 38 := by omega
  have h08 : c ≠ 8 := by omega
  have h09 : c ≠ 9 := by omega
  have h10 : c ≠ 10 := by omega
  have h13 : c ≠ 13 := by omega
  simp [attrEscChar, h60, h62, h39, h34, h38, h08, h09, h10, h13]

lemma contentEscChar_ge {c : Nat} (h : 128 ≤ c) : contentEscChar c = [c] := by
  have h60 : c ≠ 60 := by omega
  have h62 : c ≠ 62 := by omega
  have h38 : c ≠ 38 := by omega
  have h08 : c ≠ 8 := by omega
  simp [contentEscChar, h60, h62, h38, h08]

lemma substChr_attr (src : List Nat) : ∀ buf : List Nat,
    printToBufferSubstChr src buf attrEchr attrEstr = buf ++ escapeAll attrEscChar src := by
  induction src with
  | nil => intro buf; simp [printToBufferSubstChr, escapeAll]
  | cons c rest ih =>
    intro buf
    by_cases hc : c = 0
    · simp [printToBufferSubstChr, escapeAll, hc]
    · by_cases h128 : c < 128
      · have he : printEsc c buf attrEchr attrEstr = buf ++ attrEscChar c := by
          rw [printEsc_append, printEsc_attr_fin ⟨c, h128⟩ hc]
        simp [printToBufferSubstChr, escapeAll, hc, h128, ih, he]
      · have he : attrEscChar c = [c] := attrEscChar_ge (by omega)
        simp [printToBufferSubstChr, escapeAll, hc, h128, ih, he]

lemma substChr_content (src : List Nat) : ∀ buf : List Nat,
    printToBufferSubstChr src buf contentEchr contentEstr
      = buf ++ escapeAll contentEscChar src := by
  induction src with
  | nil => intro buf; simp [printToBufferSubstChr, escapeAll]
  | cons c rest ih =>
    intro buf
    by_cases hc : c = 0
    · simp [printToBufferSubstChr, escapeAll, hc]
    · by_cases h128 : c < 128
      · have he : printEsc c buf contentEchr contentEstr = buf ++ contentEscChar c := by
          rw [printEsc_append, printEsc_content_fin ⟨c, h128⟩ hc]
        simp [printToBufferSubstChr, escapeAll, hc, h128, ih, he]
      · have he : contentEscChar c = [c] := contentEscChar_ge (by omega)
        simp [printToBufferSubstChr, escapeAll, hc, h128, ih, he]

lemma printHeader_eq (p : Printer) (buf : List Nat) :
    printHeader p buf = ({ p with state := State.Content }, buf ++ headerBytes p.encoding) := by
  have h1 : (strBytes "<?xml version=\"1.0\" encoding=\"").takeWhile (fun b => b != 0)
      = strBytes "<?xml version=\"1.0\" encoding=\"" := by decide
  have h2 : (strBytes "\" standalone=\"yes\"?>\n").takeWhile (fun b => b != 0)
      = strBytes "\" standalone=\"yes\"?>\n" := by decide
  simp only [printHeader, headerBytes, printToBufferStr_eq, h1, h2, List.append_assoc]

lemma exitTagContext_eq (p : Printer) (buf : List Nat) :
    exitTagContext p buf = ({ p with state := State.Content }, buf ++ exitOutSpec p) := by
  unfold exitTagContext exitOutSpec
  by_cases hC : p.state = State.Content
  · cases p with
    | mk st ts enc => simp at hC; simp [hC]
  · by_cases hI : p.state = State.Init
    · simp [hC, hI, printHeader_eq]
    · simp [hC, hI]

/-! ## Claims -/

/-- C1 counterexample: in state TagAttribute, printValue on the value "v"
emits a blank before the quoted value, so the emission is not the quoted
escaped value and nothing else. -/
theorem c1_counterexample :
    (printValue (strBytes "v") ⟨State.TagAttribute, [strBytes "a"], []⟩ []).buf
        = [32, 34, 118, 34]
    ∧ (printValue (strBytes "v") ⟨State.TagAttribute, [strBytes "a"], []⟩ []).buf
        ≠ [34, 118, 34] := by decide

/-- C1 (amended): in state TagAttribute, printValue emits a blank and then the
value surrounded by double quotes with attribute-value escaping applied, and
returns the printer to state TagElement; in any other state it exits any
pending tag-open context (appending the exitOutSpec bytes) and emits the value
with content escaping, entering state Content. -/
theorem c1_printValue_behavior :
    ∀ (v : List Nat) (p : Printer) (buf : List Nat),
      (p.state = State.TagAttribute →
        printValue v p buf
          = ⟨true, { p with state := State.TagElement },
              buf ++ [32] ++ [34] ++ escapeAll attrEscChar v ++ [34]⟩)
      ∧ (p.state ≠ State.TagAttribute →
        printValue v p buf
          = ⟨false, { p with state := State.Content },
              buf ++ exitOutSpec p ++ escapeAll contentEscChar v⟩) := by
  intro v p buf
  constructor
  · intro hs
    simp [printValue, hs, printToBufferAttributeValue, substChr_attr, List.append_assoc]
  · intro hs
    simp [printValue, hs, exitTagContext_eq, printToBufferContent, substChr_content,
      List.append_assoc]

/-- C1 witness: the amended theorem applied at a concrete configuration. -/
theorem c1_witness :
    printValue [118] ⟨State.TagAttribute, [[97]], []⟩ []
      = ⟨true, ⟨State.TagElement, [[97]], []⟩, [32, 34, 118, 34]⟩ :=
  ((c1_printValue_behavior [118] ⟨State.TagAttribute, [[97]], []⟩ []).1 rfl).trans (by decide)

/-- C2 counterexample: printValue called in state Content successfully emits
the escaped content but returns false. -/
theorem c2_counterexample :
    (printValue (strBytes "x") ⟨State.Content, [strBytes "a"], []⟩ []).buf = strBytes "x"
    ∧ (printValue (strBytes "x") ⟨State.Content, [strBytes "a"], []⟩ []).ret = false := by decide

/-- C2 (amended): printOpenTag always returns true; printAttribute returns
true exactly in state TagElement; printCloseTag returns true exactly when the
tag stack has a nonempty top name and the state is TagElement or Content; but
printValue returns true only when called in state TagAttribute — in every
other state it emits the escaped content and still returns false. -/
theorem c2_return_values :
    (∀ (n : List Nat) (p : Printer) (buf : List Nat), (printOpenTag n p buf).ret = true)
    ∧ (∀ (n : List Nat) (p : Printer) (buf : List Nat),
        (printAttribute n p buf).ret = true ↔ p.state = State.TagElement)
    ∧ (∀ (p : Printer) (buf : List Nat),
        (printCloseTag p buf).ret = true
          ↔ ∃ top rest, p.tagstack = top :: rest ∧ top ≠ []
              ∧ (p.state = State.TagElement ∨ p.state = State.Content))
    ∧ (∀ (v : List Nat) (p : Printer) (buf : List Nat),
        (printValue v p buf).ret = true ↔ p.state = State.TagAttribute) := by
  refine ⟨?_, ?_, ?_, ?_⟩
  · intro n p buf; simp [printOpenTag]
  · intro n p buf
    by_cases hs : p.state = State.TagElement <;> simp [printAttribute, hs]
  · intro p buf
    rcases hts : p.tagstack with _ | ⟨top, rest⟩
    · simp [printCloseTag, hts]
    · by_cases hlen : top.length = 0
      · have htop : top = [] := List.length_eq_zero.mp hlen
        simp [printCloseTag, hts, hlen, htop]
      · have htop : top ≠ [] := fun h => hlen (by simp [h])
        by_cases hTE : p.state = State.TagElement
        · have hred : printCloseTag p buf
              = ⟨true, { p with state := State.Content, tagstack := rest }, buf ++ [47, 62]⟩ := by
            simp [printCloseTag, hts, hlen, hTE]
          rw [hred]
          exact iff_of_true rfl ⟨top, rest, rfl, htop, Or.inl hTE⟩
        · by_cases hC : p.state = State.Content
          · have hred : printCloseTag p buf
                = ⟨true, { p with tagstack := rest },
                    printToBufferStr top (buf ++ [60, 47]) ++ [62]⟩ := by
              simp [printCloseTag, hts, hlen, hTE, hC]
            rw [hred]
            exact iff_of_true rfl ⟨top, rest, rfl, htop, Or.inr hC⟩
          · have hred : printCloseTag p buf = ⟨false, p, buf⟩ := by
              simp [printCloseTag, hts, hlen, hTE, hC]
            rw [hred]
            refine iff_of_false (by simp) ?_
            rintro ⟨t, r, -, -, hor⟩
            rcases hor with h | h
            · exact hTE h
            · exact hC h
  · intro v p buf
    by_cases hs : p.state = State.TagAttribute
    · simp [printValue, hs]
    · simp [printValue, hs]

/-- C2 witness: the amended theorem applied at concrete configurations. -/
theorem c2_witness :
    (printOpenTag [97] ⟨State.Init, [], []⟩ []).ret = true
    ∧ (printValue [118] ⟨State.TagAttribute, [[97]], []⟩ []).ret = true :=
  ⟨c2_return_values.1 [97] ⟨State.Init, [], []⟩ [],
   (c2_return_values.2.2.2 [118] ⟨State.TagAttribute, [[97]], []⟩ []).mpr rfl⟩

/-- C5: printAttribute succeeds exactly in state TagElement, emitting a blank,
the name and the equal sign and entering TagAttribute; in any other state it
fails and emits nothing. -/
theorem c5_printAttribute_gating :
    ∀ (name : List Nat) (p : Printer) (buf : List Nat),
      (p.state = State.TagElement → (∀ b ∈ name, b ≠ 0) →
        printAttribute name p buf
          = ⟨true, { p with state := State.TagAttribute }, buf ++ [32] ++ name ++ [61]⟩)
      ∧ (p.state ≠ State.TagElement → printAttribute name p buf = ⟨false, p, buf⟩) := by
  intro name p buf
  constructor
  · intro hs hn
    simp [printAttribute, hs, printToBufferStr_eq, takeWhile_nz hn, List.append_assoc]
  · intro hs
    simp [printAttribute, hs]

/-- C5 witness: the theorem applied at concrete configurations. -/
theorem c5_witness :
    printAttribute [107] ⟨State.TagElement, [[97]], []⟩ []
      = ⟨true, ⟨State.TagAttribute, [[97]], []⟩, [32, 107, 61]⟩
    ∧ printAttribute [107] ⟨State.Content, [], []⟩ [] = ⟨false, ⟨State.Content, [], []⟩, []⟩ :=
  ⟨((c5_printAttribute_gating [107] ⟨State.TagElement, [[97]], []⟩ []).1 rfl
      (by decide)).trans (by decide),
   (c5_printAttribute_gating [107] ⟨State.Content, [], []⟩ []).2 (by decide)⟩

/-- C6 counterexample: a NUL scalar is not escaped as a numeric character
reference — it terminates the value, so content escaping of the one-character
value NUL emits nothing at all, and the attribute form emits only the two
quotes. -/
theorem c6_counterexample :
    printToBufferContent [0] [] = []
    ∧ printToBufferContent [0] [] ≠ strBytes "&#0;"
    ∧ printToBufferAttributeValue [0] [] = [34, 34] := by decide

/-- C6 (amended): attribute-value escaping replaces exactly the characters
lt gt apos quot amp BS TAB LF CR by their entity or numeric references and
leaves every other printed character unchanged; content escaping replaces
exactly lt gt amp BS; a NUL terminates the value, so it and everything after
it are never emitted and the table entries for NUL are unreachable, while BS
is always emitted as a numeric character reference. -/
theorem c6_escaping_tables :
    (∀ src buf : List Nat,
      printToBufferAttributeValue src buf = buf ++ [34] ++ escapeAll attrEscChar src ++ [34])
    ∧ (∀ src buf : List Nat,
      printToBufferContent src buf = buf ++ escapeAll contentEscChar src)
    ∧ (∀ c : Nat, c ∉ ([60, 62, 39, 34, 38, 8, 9, 10, 13] : List Nat) → attrEscChar c = [c])
    ∧ (∀ c : Nat, c ∉ ([60, 62, 38, 8] : List Nat) → contentEscChar c = [c]) := by
  refine ⟨?_, ?_, ?_, ?_⟩
  · intro src buf
    simp [printToBufferAttributeValue, substChr_attr, List.append_assoc]
  · intro src buf
    simp [printToBufferContent, substChr_content]
  · intro c hc
    simp only [List.mem_cons, List.not_mem_nil, or_false, not_or] at hc
    obtain ⟨h1, h2, h3, h4, h5, h6, h7, h8, h9⟩ := hc
    simp [attrEscChar, h1, h2, h3, h4, h5, h6, h7, h8, h9]
  · intro c hc
    simp only [List.mem_cons, List.not_mem_nil, or_false, not_or] at hc
    obtain ⟨h1, h2, h3, h4⟩ := hc
    simp [contentEscChar, h1, h2, h3, h4]

/-- C6 witness: the theorem applied at concrete values. -/
theorem c6_witness :
    attrEscChar 65 = [65]
    ∧ printToBufferContent (strBytes "x<y") [] = strBytes "x&lt;y" :=
  ⟨c6_escaping_tables.2.2.1 65 (by decide),
   (c6_escaping_tables.2.1 (strBytes "x<y") []).trans (by decide)⟩

/-- C9: whenever printAttribute or printCloseTag returns false, the whole call
left the printer state, the tag stack and the output buffer untouched. -/
theorem c9_failure_atomic :
    (∀ (name : List Nat) (p : Printer) (buf : List Nat),
      (printAttribute name p buf).ret = false → printAttribute name p buf = ⟨false, p, buf⟩)
    ∧ (∀ (p : Printer) (buf : List Nat),
      (printCloseTag p buf).ret = false → printCloseTag p buf = ⟨false, p, buf⟩) := by
  constructor
  · intro name p buf h
    by_cases hs : p.state = State.TagElement
    · simp [printAttribute, hs] at h
    · simp [printAttribute, hs]
  · intro p buf h
    rcases hts : p.tagstack with _ | ⟨top, rest⟩
    · simp [printCloseTag, hts]
    · by_cases hlen : top.length = 0
      · simp [printCloseTag, hts, hlen]
      · by_cases hTE : p.state = State.TagElement
        · simp [printCloseTag, hts, hlen, hTE] at h
        · by_cases hC : p.state = State.Content
          · simp [printCloseTag, hts, hlen, hTE, hC] at h
          · simp [printCloseTag, hts, hlen, hTE, hC]

/-- C9 witness: the theorem applied at concrete failing calls. -/
theorem c9_witness :
    printAttribute [107] ⟨State.Content, [], []⟩ [] = ⟨false, ⟨State.Content, [], []⟩, []⟩
    ∧ printCloseTag ⟨State.Init, [], []⟩ [] = ⟨false, ⟨State.Init, [], []⟩, []⟩ :=
  ⟨c9_failure_atomic.1 [107] ⟨State.Content, [], []⟩ [] (by decide),
   c9_failure_atomic.2 ⟨State.Init, [], []⟩ [] (by decide)⟩

/-- C3: the very first printOpenTag, from state Init with declared encoding
UTF-8, emits the prolog but follows it with a stray closing angle (62) before
the opening angle and the name — exitTagContext prints the angle even on the
Init path — so the output is not the prolog directly followed by the open
tag as the claim states; name push and state TagElement do happen. -/
theorem c3_first_open_tag_stray_angle :
    (printOpenTag (strBytes "a") (initP (strBytes "UTF-8")) []).buf
        = headerBytes (strBytes "UTF-8") ++ [62] ++ strBytes "<a"
    ∧ (printOpenTag (strBytes "a") (initP (strBytes "UTF-8")) []).buf
        ≠ headerBytes (strBytes "UTF-8") ++ strBytes "<a"
    ∧ (printOpenTag (strBytes "a") (initP (strBytes "UTF-8")) []).printer.state
        = State.TagElement
    ∧ (printOpenTag (strBytes "a") (initP (strBytes "UTF-8")) []).printer.tagstack
        = [strBytes "a"] := by decide

/-- C4 counterexample: in state TagElement with a (nonempty) tag stack whose
top is the empty name, printCloseTag returns false and pops nothing, while the
claim promises the self-closing emission, a pop and true. -/
theorem c4_counterexample :
    printCloseTag ⟨State.TagElement, [[]], []⟩ []
      = ⟨false, ⟨State.TagElement, [[]], []⟩, []⟩ := by decide

/-- C4 (amended): with a nonempty tag stack whose top name is nonempty,
printCloseTag in TagElement emits the self-closing angle pair and in Content
emits the full closing tag of the top name; in both cases it pops exactly one
entry and returns true; with an empty tag stack (and likewise with an empty
top name) it fails. -/
theorem c4_printCloseTag_behavior :
    (∀ (p : Printer) (buf top : List Nat) (rest : List (List Nat)),
      p.tagstack = top :: rest → top ≠ [] → (∀ b ∈ top, b ≠ 0) →
      (p.state = State.TagElement →
        printCloseTag p buf
          = ⟨true, { p with state := State.Content, tagstack := rest }, buf ++ [47, 62]⟩)
      ∧ (p.state = State.Content →
        printCloseTag p buf
          = ⟨true, { p with tagstack := rest }, buf ++ [60, 47] ++ top ++ [62]⟩))
    ∧ (∀ (p : Printer) (buf : List Nat), p.tagstack = [] →
      printCloseTag p buf = ⟨false, p, buf⟩) := by
  constructor
  · intro p buf top rest hts htop hnz
    have hlen : ¬ top.length = 0 := fun h => htop (List.length_eq_zero.mp h)
    constructor
    · intro hTE
      simp [printCloseTag, hts, hlen, hTE]
    · intro hC
      have hTE : ¬ p.state = State.TagElement := by simp [hC]
      simp [printCloseTag, hts, hlen, hTE, hC, printToBufferStr_eq, takeWhile_nz hnz,
        List.append_assoc]
  · intro p buf hts
    simp [printCloseTag, hts]

/-- C4 witness: the amended theorem applied at concrete configurations. -/
theorem c4_witness :
    printCloseTag ⟨State.TagElement, [[97]], []⟩ [] = ⟨true, ⟨State.Content, [], []⟩, [47, 62]⟩
    ∧ printCloseTag ⟨State.Content, [], []⟩ [] = ⟨false, ⟨State.Content, [], []⟩, []⟩ :=
  ⟨((c4_printCloseTag_behavior.1 ⟨State.TagElement, [[97]], []⟩ [] [97] [] rfl
      (by decide) (by decide)).1 rfl).trans (by decide),
   c4_printCloseTag_behavior.2 ⟨State.Content, [], []⟩ [] rfl⟩

/-- C8: for every encoding identifier, createPrinter returns a value only on
the unrecognized-encoding branch (false there); every branch that creates a
codec printer object reaches the end of the function with no return value. -/
theorem c8_createPrinter_missing_return :
    ∀ ident : List Nat,
      (createPrinter ident).ret
        = if ((createPrinter ident).obj).isSome then none else some false := by
  intro ident
  simp only [createPrinter]
  repeat' split
  all_goals simp_all

/-- The reachability invariant of C10 for a single printer configuration. -/
def printerInv (p : Printer) : Prop :=
  (p.state = State.TagElement ∨ p.state = State.TagAttribute) → p.tagstack ≠ []

lemma stepAct_inv {p : Printer} {buf : List Nat} (h : printerInv p) (a : Act) :
    printerInv (stepAct (p, buf) a).1 := by
  cases a with
  | aOpen n =>
    intro _
    simp [stepAct, printOpenTag]
  | aAttr n =>
    by_cases hs : p.state = State.TagElement
    · intro _
      simp only [stepAct, printAttribute, hs, if_true, ite_true]
      exact h (Or.inl hs)
    · simpa [stepAct, printAttribute, hs] using h
  | aValue v =>
    by_cases hs : p.state = State.TagAttribute
    · intro _
      simp only [stepAct, printValue, hs, if_true, ite_true]
      exact h (Or.inr hs)
    · intro hor
      simp [stepAct, printValue, hs, exitTagContext_eq] at hor
  | aClose =>
    rcases hts : p.tagstack with _ | ⟨top, rest⟩
    · simpa [stepAct, printCloseTag, hts] using h
    · by_cases hlen : top.length = 0
      · simpa [stepAct, printCloseTag, hts, hlen] using h
      · by_cases hTE : p.state = State.TagElement
        · intro hor
          simp [stepAct, printCloseTag, hts, hlen, hTE] at hor
        · by_cases hC : p.state = State.Content
          · intro hor
            have hTE2 : ¬ p.state = State.TagElement := hTE
            simp [stepAct, printCloseTag, hts, hlen, hTE2, hC] at hor
          · simpa [stepAct, printCloseTag, hts, hlen, hTE, hC] using h

lemma runActs_inv (acts : List Act) : ∀ pb : Printer × List Nat,
    printerInv pb.1 → printerInv (runActs pb acts).1 := by
  induction acts with
  | nil => intro pb h; simpa [runActs] using h
  | cons a rest ih =>
    intro pb h
    have h1 : printerInv (stepAct pb a).1 := stepAct_inv h a
    simpa [runActs, List.foldl_cons] using ih (stepAct pb a) h1

/-- C10: in every configuration reachable from the initial printer (state
Init, empty tag stack) by a sequence of printOpenTag, printAttribute,
printValue and printCloseTag calls, state TagElement or TagAttribute implies
a nonempty tag stack. -/
theorem c10_state_stack_invariant :
    ∀ (enc : List Nat) (acts : List Act),
      ((runActs (initP enc, []) acts).1.state = State.TagElement
        ∨ (runActs (initP enc, []) acts).1.state = State.TagAttribute) →
      (runActs (initP enc, []) acts).1.tagstack ≠ [] := by
  intro enc acts
  exact runActs_inv acts (initP enc, [])
    (fun hor => by rcases hor with h | h <;> simp [initP] at h)

/-- C10 witness: the theorem applied at a concrete call sequence. -/
theorem c10_witness :
    (runActs (initP [], []) [Act.aOpen [97], Act.aAttr [107]]).1.tagstack ≠ [] :=
  c10_state_stack_invariant [] [Act.aOpen [97], Act.aAttr [107]] (Or.inr (by decide))

/-! ## Lemmas on encoding normalization and selection -/

lemma asciiLower_range (b : Nat) : (32 < asciiLower b ∧ asciiLower b < 128) ↔ (32 < b ∧ b < 128) := by
  unfold asciiLower
  split <;> omega

lemma parseEncoding_eq (s : List Nat) :
    parseEncoding s = (normHS s).filter (fun b => decide (32 < b ∧ b < 128)) := by
  induction s with
  | nil => rfl
  | cons b rest ih =>
    by_cases h1 : b ≤ 32 ∨ 128 ≤ b
    · by_cases h45 : b = 45
      · simp [parseEncoding, normHS, h1, h45, ih, List.filter_cons] at *
      · by_cases h32 : b = 32
        · simp [parseEncoding, normHS, List.filter_cons, h1, h45, h32, ih]
        · have hlow : asciiLower b = b := by unfold asciiLower; rw [if_neg (by omega)]
          have hr : ¬ (32 < b ∧ b < 128) := by omega
          simp [parseEncoding, normHS, List.filter_cons, h1, h45, h32, hlow, hr, ih]
    · push_neg at h1
      by_cases h45 : b = 45
      · simp [parseEncoding, normHS, List.filter_cons, h45, ih]
      · have h32 : b ≠ 32 := by omega
        have hif : ¬ (b ≤ 32 ∨ 128 ≤ b) := by omega
        have hr : 32 < asciiLower b ∧ asciiLower b < 128 := (asciiLower_range b).mpr (by omega)
        simp [parseEncoding, normHS, List.filter_cons, hif, h45, h32, hr, ih]

lemma parseEncoding_mem {s : List Nat} {b : Nat} (h : b ∈ parseEncoding s) :
    32 < b ∧ b < 128 := by
  rw [parseEncoding_eq] at h
  have := List.of_mem_filter h
  simpa using this

lemma cstrByte_ge (l : List Nat) : ∀ i, l.length ≤ i → cstrByte l i = 0 := by
  induction l with
  | nil => intro i _; cases i <;> rfl
  | cons b rest ih =>
    intro i hi
    cases i with
    | zero => simp at hi
    | succ j => exact ih j (by simpa using hi)

lemma cstrByte_mem (l : List Nat) : ∀ i, i < l.length → cstrByte l i ∈ l := by
  induction l with
  | nil => intro i hi; simp at hi
  | cons b rest ih =>
    intro i hi
    cases i with
    | zero => simp [cstrByte]
    | succ j => exact List.mem_cons_of_mem b (ih j (by simpa using hi))

lemma memcmpEq_spec (a b : List Nat) : ∀ n, memcmpEq a b n = true ↔
    ∀ i, i < n → cstrByte a i = cstrByte b i := by
  intro n
  induction n with
  | zero => simp [memcmpEq]
  | succ m ih =>
    simp only [memcmpEq, Bool.and_eq_true, beq_iff_eq, ih]
    constructor
    · rintro ⟨h1, h2⟩ i hi
      rcases Nat.lt_succ_iff_lt_or_eq.mp hi with h | h
      · exact h2 i h
      · rw [h]; exact h1
    · intro h
      exact ⟨h m (Nat.lt_succ_self m), fun i hi => h i (Nat.lt_succ_of_lt hi)⟩

lemma cstr_ext : ∀ (a b : List Nat), a.length = b.length →
    (∀ i, cstrByte a i = cstrByte b i) → a = b := by
  intro a
  induction a with
  | nil =>
    intro b hl _
    cases b with
    | nil => rfl
    | cons y ys => simp at hl
  | cons x rest ih =>
    intro b hl h
    cases b with
    | nil => simp at hl
    | cons y ys =>
      have h0 : x = y := h 0
      have ht : rest = ys := ih ys (by simpa using hl) (fun i => h (i + 1))
      rw [h0, ht]

lemma memcmp_exact {a lit : List Nat} (ha : ∀ x ∈ a, 32 < x) (hl : lit.length ≤ a.length)
    (h : memcmpEq a lit a.length = true) : a = lit := by
  have hs := (memcmpEq_spec a lit a.length).mp h
  have hlen : a.length = lit.length := by
    by_contra hne
    have hlt : lit.length < a.length := lt_of_le_of_ne hl (fun e => hne e.symm)
    have h1 := hs lit.length hlt
    have h2 : cstrByte a lit.length ∈ a := cstrByte_mem a lit.length hlt
    have h3 : cstrByte lit lit.length = 0 := cstrByte_ge lit lit.length le_rfl
    have h4 := ha _ h2
    omega
  refine cstr_ext a lit hlen (fun i => ?_)
  by_cases hi : i < a.length
  · exact hs i hi
  · rw [cstrByte_ge a i (le_of_not_lt hi), cstrByte_ge lit i (by omega)]

lemma isoCond_eq {s : List Nat} (h : isoCond (parseEncoding s) = true) :
    parseEncoding s = strBytes "isolatin" ∨ parseEncoding s = strBytes "iso8859" := by
  have ha : ∀ x ∈ parseEncoding s, 32 < x := fun x hx => (parseEncoding_mem hx).1
  unfold isoCond at h
  simp only [Bool.or_eq_true, Bool.and_eq_true, decide_eq_true_eq] at h
  rcases h with ⟨hlen2, hcmp⟩ | ⟨hlen2, hcmp⟩
  · have hlit : (strBytes "isolatin").length = 8 := by decide
    exact Or.inl (memcmp_exact ha (by omega) hcmp)
  · have hlit : (strBytes "iso8859").length = 7 := by decide
    exact Or.inr (memcmp_exact ha (by omega) hcmp)

/-- C7 counterexample: the all-blank identifier normalizes to the empty
string, which is not in the supported set, yet construction succeeds with the
default utf8 codec — the claim that every identifier whose normalization is
outside the set fails construction is false. -/
theorem c7_counterexample :
    parseEncoding (strBytes " ") = []
    ∧ ([] : List Nat) ∉ supportedEncodings
    ∧ (createPrinter (strBytes " ")).obj = some Codec.UTF8 := by decide

/-- C7 (amended): identifiers that differ only in letter case and in
occurrences of hyphen and blank have the same normalization and select the
same codec; an identifier whose normalization is nonempty and not among
utf8, utf16/utf16be, utf16le, ucs2/ucs2be, ucs2le, ucs4/ucs4be, ucs4le,
isolatin, iso8859 fails construction; the empty normalization succeeds with
the default utf8 codec. -/
theorem c7_encoding_selection :
    (∀ s1 s2 : List Nat, normHS s1 = normHS s2 →
      parseEncoding s1 = parseEncoding s2 ∧ createPrinter s1 = createPrinter s2)
    ∧ (∀ s : List Nat, parseEncoding s ∉ supportedEncodings → parseEncoding s ≠ [] →
      (createPrinter s).obj = none)
    ∧ (∀ s : List Nat, parseEncoding s = [] → (createPrinter s).obj = some Codec.UTF8) := by
  refine ⟨?_, ?_, ?_⟩
  · intro s1 s2 h
    have hp : parseEncoding s1 = parseEncoding s2 := by
      rw [parseEncoding_eq, parseEncoding_eq, h]
    refine ⟨hp, ?_⟩
    unfold createPrinter
    rw [hp]
  · intro s hns hne
    have hni : ∀ t ∈ supportedEncodings, parseEncoding s ≠ t :=
      fun t ht h => hns (h ▸ ht)
    have hiso : ¬ isoCond (parseEncoding s) = true := by
      intro hx
      rcases isoCond_eq hx with h | h
      · exact hni (strBytes "isolatin") (by decide) h
      · exact hni (strBytes "iso8859") (by decide) h
    have hlen0 : ¬ (parseEncoding s).length = 0 := by
      simpa [List.length_eq_zero] using hne
    simp only [createPrinter]
    rw [if_neg hiso,
      if_neg (not_or.mpr ⟨hlen0, hni (strBytes "utf8") (by decide)⟩),
      if_neg (not_or.mpr ⟨hni (strBytes "utf16") (by decide),
        hni (strBytes "utf16be") (by decide)⟩),
      if_neg (hni (strBytes "utf16le") (by decide)),
      if_neg (not_or.mpr ⟨hni (strBytes "ucs2") (by decide),
        hni (strBytes "ucs2be") (by decide)⟩),
      if_neg (hni (strBytes "ucs2le") (by decide)),
      if_neg (not_or.mpr ⟨hni (strBytes "ucs4") (by decide),
        hni (strBytes "ucs4be") (by decide)⟩),
      if_neg (hni (strBytes "ucs4le") (by decide))]
  · intro s h
    have hiso : ¬ isoCond (parseEncoding s) = true := by
      rw [h]; decide
    simp only [createPrinter]
    rw [if_neg hiso, if_pos (Or.inl (by rw [h]; rfl))]

/-- C7 witness: the theorem applied at concrete identifiers. -/
theorem c7_witness :
    parseEncoding (strBytes "UTF-8") = parseEncoding (strBytes "utf8")
    ∧ createPrinter (strBytes "UTF-8") = createPrinter (strBytes "utf8")
    ∧ (createPrinter (strBytes "XYZ")).obj = none :=
  ⟨(c7_encoding_selection.1 (strBytes "UTF-8") (strBytes "utf8") (by decide)).1,
   (c7_encoding_selection.1 (strBytes "UTF-8") (strBytes "utf8") (by decide)).2,
   c7_encoding_selection.2.1 (strBytes "XYZ") (by decide) (by decide)⟩

end Textwolf
